import Mathlib

/-!
# Verification of the ws3 aspatial forest-estate simulation engine

Shallow embedding of the core of the repository (`core.py`, `woodstock.py`):
piecewise-linear yield curves (`Interpolator`, `Curve`), lossy curve
simplification, the per-development-type age-class area ledger with growth,
operability-expression compilation, and the `apply_action` transition engine.

Modelling conventions:
* Python floats are modelled as exact rationals (`ℚ`); float rounding is not
  modelled.
* Python dicts with numeric default values (`defaultdict(float)`, the
  recursive-defaultdict applied-action ledger) are modelled as total functions
  returning `0` for absent keys.
* Python exceptions (`AssertionError`, `KeyError`, `NameError`) are modelled
  with `Except`; a raising path returns `.error`.
* `int()` truncation, Python-2 negative list indexing, `bisect.bisect_left`,
  and `list.remove` (erase first occurrence) are modelled explicitly below.
-/

/-- A curve breakpoint: integer age (x) and rational value (y).
Matches `Interpolator.points()`, which coerces x to `int`. -/
abbrev CPoint := ℕ × ℚ

/-- Python 2 list indexing for rational lists: a negative index counts from
the end (`l[-1]` is the last element).  Out-of-range access (which would raise
`IndexError` in Python, and is unreachable for the well-formed curves the
engine builds) returns `0`. -/
def pyGet (l : List ℚ) (i : ℤ) : ℚ :=
  let j : ℤ := if i < 0 then (l.length : ℤ) + i else i
  if j < 0 then 0 else l.getD j.toNat 0

/-- Python `int()` applied to a rational: truncation toward zero. -/
def pyInt (q : ℚ) : ℤ := q.num / (q.den : ℤ)

/-- One step interval of `bisect.bisect_left`'s binary-search loop
(`while lo < hi: mid = (lo+hi)//2; if a[mid] < x: lo = mid+1 else: hi = mid`).
Fuel bounds the iteration count; `a.length` steps always suffice. -/
def bisectLoop (a : List ℚ) (x : ℚ) : ℕ → ℕ → ℕ → ℕ
  | lo, _hi, 0 => lo
  | lo, hi, fuel + 1 =>
    if lo < hi then
      let mid := (lo + hi) / 2
      if a.getD mid 0 < x then bisectLoop a x (mid + 1) hi fuel
      else bisectLoop a x lo mid fuel
    else lo

/-- `bisect.bisect_left(a, x)`: leftmost insertion point for `x` in `a`. -/
def bisectLeft (a : List ℚ) (x : ℚ) : ℕ := bisectLoop a x 0 a.length a.length

/-- The x-coordinates of a point list, as rationals (`Interpolator.x`). -/
def xsOf (pts : List CPoint) : List ℚ := pts.map fun p => (p.1 : ℚ)

/-- The y-coordinates of a point list (`Interpolator.y`). -/
def ysOf (pts : List CPoint) : List ℚ := pts.map Prod.snd

/-- Slope of the segment between two breakpoints
(`(y2 - y1)/(x2 - x1)`; the engine never builds segments with equal x). -/
def ptSlope (a b : CPoint) : ℚ := (b.2 - a.2) / ((b.1 : ℚ) - (a.1 : ℚ))

/-- The per-segment slopes `Interpolator.m`
(`[(y2-y1)/(x2-x1) for x1,x2,y1,y2 in zip(x, x[1:], y, y[1:])]`). -/
def slopesOf (pts : List CPoint) : List ℚ :=
  (pts.zip pts.tail).map fun ab => ptSlope ab.1 ab.2

/-- `Interpolator.__call__(x)`: for `x = 0` (falsy) return `y[0]`; otherwise
locate the segment with `bisect_left(self.x, x) - 1` and evaluate
`y[i] + m[i]*(x - x[i])` with Python-2 indexing. -/
def interpEval (pts : List CPoint) (x : ℕ) : ℚ :=
  if x = 0 then pyGet (ysOf pts) 0
  else
    let i : ℤ := (bisectLeft (xsOf pts) (x : ℚ) : ℤ) - 1
    pyGet (ysOf pts) i + pyGet (slopesOf pts) i * ((x : ℚ) - pyGet (xsOf pts) i)

/-- `Interpolator.lookup(y)` (left-side variant; the `from_right` variant
raises in the source): `i = bisect_left(self.y, y) - 1`; if `i == n - 1`
return `x[-1]`; otherwise `x[i] + (y - y[i])/m[i]` when `m[i]` is nonzero,
else `x[i]`. -/
def interpLookup (pts : List CPoint) (y : ℚ) : ℚ :=
  let i : ℤ := (bisectLeft (ysOf pts) y : ℤ) - 1
  if i = (pts.length : ℤ) - 1 then pyGet (xsOf pts) (-1)
  else if pyGet (slopesOf pts) i ≠ 0 then
    pyGet (xsOf pts) i + (y - pyGet (ysOf pts) i) / pyGet (slopesOf pts) i
  else pyGet (xsOf pts) i

/-- `Curve.lookup(y)`: `int(self.interp.lookup(y))`. -/
def curveLookup (pts : List CPoint) (y : ℚ) : ℤ := pyInt (interpLookup pts y)

/-- `Curve.y()`: the curve sampled at every integer of its domain
`x = xrange(0, max_x+1)`. -/
def curveY (pts : List CPoint) (maxX : ℕ) : List ℚ :=
  (List.range (maxX + 1)).map (interpEval pts)

/-- `sum(self)` over a curve: the domain-sum of the sampled values. -/
def curveSum (pts : List CPoint) (maxX : ℕ) : ℚ := (curveY pts maxX).sum

/-!
## The age-class area ledger and growth (`DevelopmentType._areas`, `grow`)

`self._areas` maps `period -> (age -> area)` with `defaultdict(float)` rows;
we model it as a total function that is `0` on absent entries.
-/

/-- The per-development-type area ledger `period → age → area`. -/
abbrev DevAreas := ℕ → ℕ → ℚ

/-- `DevelopmentType.reset_areas(period)`: replace the row of one period by an
empty `defaultdict(float)` (all zeros). -/
def resetAreas (ar : DevAreas) (p : ℕ) : DevAreas :=
  fun p' a => if p' = p then 0 else ar p' a

/-- One iteration of `DevelopmentType.grow`'s loop body:
`self.reset_areas(p+1)` followed by
`for age, area in self._areas[p].items(): self._areas[p+1][age+1] = area`.
After the reset, row `p+1` holds `0` at age `0` (nothing writes it) and the
old row-`p` value shifted up by one at every age `a+1`; iterating only the
dict's present keys agrees with this because absent keys read as `0`. -/
def growStep (ar : DevAreas) (p : ℕ) : DevAreas :=
  fun p' a =>
    if p' = p + 1 then
      match a with
      | 0 => 0
      | Nat.succ b => ar p b
    else ar p' a

/-- `DevelopmentType.grow(start_period, cascade)`:
`end_period = start_period + 1 if not cascade else self.parent.horizon`, then
the loop body above for `p in range(start_period, end_period)`. -/
def grow (ar : DevAreas) (startPeriod : ℕ) (cascade : Bool) (horizon : ℕ) : DevAreas :=
  let endPeriod := if cascade then horizon else startPeriod + 1
  (List.range' startPeriod (endPeriod - startPeriod)).foldl growStep ar

theorem grow_single_step (ar : DevAreas) (p horizon : ℕ) :
    grow ar p false horizon = growStep ar p := by
  simp [grow, Nat.succ_sub, List.range']

/-!
## Curve simplification (`Curve.simplify`, `Curve._simplify`, `Curve.add_points`)
-/

/-- `Curve._simplify(e, points)`: with `p` a frozen copy of `points`, for each
interior index `i in range(1, len(p)-1)` compute the two adjacent segment
slopes from `p`, and if they differ by less than `e` remove the first
occurrence of `p[i]` from the live list (`points.remove(p[i])`). -/
def simplifyPass (e : ℚ) (points : List CPoint) : List CPoint :=
  (List.range' 1 (points.length - 2)).foldl
    (fun acc i =>
      let s1 := ptSlope (points.getD (i - 1) (0, 0)) (points.getD i (0, 0))
      let s2 := ptSlope (points.getD i (0, 0)) (points.getD (i + 1) (0, 0))
      if |s2 - s1| < e then acc.erase (points.getD i (0, 0)) else acc)
    points

/-- The domain-sum relative error used by `Curve.simplify`:
`abs(sum(self) - ysum) / ysum` for a candidate point list
(division by zero, impossible on the paths the code takes, yields `0`). -/
def relErrTo (ysum : ℚ) (maxX : ℕ) (pts : List CPoint) : ℚ :=
  |curveSum pts maxX - ysum| / ysum

/-- The `while` loop of `Curve.simplify`.  State: remaining fuel
(`max_iters - sentinel`, starting at 500), `error`, the threshold `e`
(stepped by `estep = 0.05`), and the live/one-back/two-back point buffers
`_points`, `__points`, `___points`.  Loop condition:
`error < epsilon and sentinel < max_iters and len(_points) > 2`.  On each
iteration `_simplify(e, _points)` runs; if `ysum < epsilon` the original
points are restored and the routine exits (null-curve guard); otherwise the
error is recomputed and the buffers shift.  On exit the interpolator is
rebuilt from `___points` (backing up two steps). -/
def simplifyLoop (orig : List CPoint) (ysum ε : ℚ) (maxX : ℕ) :
    ℕ → ℚ → ℚ → List CPoint → List CPoint → List CPoint → List CPoint
  | 0, _err, _e, _p1, _p2, p3 => p3
  | Nat.succ fuel, err, e, p1, p2, p3 =>
    if err < ε ∧ 2 < p1.length then
      let r := simplifyPass e p1
      if ysum < ε then orig
      else simplifyLoop orig ysum ε maxX fuel (relErrTo ysum maxX r) (e + 1/20) r r p2
    else p3

/-- `Curve.simplify(points)`: no-op for special curves and for point lists of
at most two points; otherwise run the autotuning loop (initial
`error = 0`, `e = 0`, `sentinel = 0`, `max_iters = 500`,
`ysum = sum(self)` with the interpolator still built from `points`). -/
def simplifyCurve (isSpecial : Bool) (ε : ℚ) (maxX : ℕ) (pts : List CPoint) : List CPoint :=
  if isSpecial then pts
  else if pts.length ≤ 2 then pts
  else simplifyLoop pts (curveSum pts maxX) ε maxX 500 0 0 pts pts pts

/-- The padding step of `Curve.add_points`: if the first x is positive,
prepend `(0, 0)` (and `(x_min - 1, 0)` when `x_min > 1`); if the last x is
below `max_x`, append `(max_x, y_last)`. -/
def padPoints (maxX : ℕ) (pts : List CPoint) : List CPoint :=
  match pts with
  | [] => []
  | (x0, _) :: _ =>
    let front :=
      if 0 < x0 then
        if 1 < x0 then (0, (0 : ℚ)) :: (x0 - 1, (0 : ℚ)) :: pts else (0, (0 : ℚ)) :: pts
      else pts
    match front.getLast? with
    | some (xl, yl) => if xl < maxX then front ++ [(maxX, yl)] else front
    | none => front

/-- The point list held by a freshly constructed non-special
`Curve(points=...)` with `simplify=True`: `add_points` pads the list and then
runs `simplify` on it. -/
def curveFromPoints (ε : ℚ) (maxX : ℕ) (pts : List CPoint) : List CPoint :=
  simplifyCurve false ε maxX (padPoints maxX pts)

/-!
## Derived curves (`Curve.mai`, the spec's CAI) and curve division
-/

/-- `Curve.mai()`'s point list:
`[(0, 0.)] + [(x, self[x]/(float(x)*self.period_length)) for x in self.x[1:]]`. -/
def maiPoints (pts : List CPoint) (maxX : ℕ) (periodLength : ℚ) : List CPoint :=
  (0, 0) :: (List.range' 1 maxX).map fun x =>
    (x, interpEval pts x / ((x : ℚ) * periodLength))

/-- `DevelopmentType._resolver_cai`: resolves a `_CAI(...)` complex yield by
calling `arg.mai()` on the argument curve and registering the resulting
`Curve` (whose constructor pads and simplifies the point list with the
curve-epsilon default `εdefault`). -/
def resolverCai (argPts : List CPoint) (maxX : ℕ) (periodLength εdefault : ℚ) : List CPoint :=
  curveFromPoints εdefault maxX (maiPoints argPts maxX periodLength)

/-- Modelled from the spec: the CAI (periodic-increment) derived curve,
"`Δy / period_length`" — at each age the difference between consecutive
y-values divided by the period length.  (The source's `Curve.cai` passes the
whole x-list to the interpolator and would raise a `TypeError`; this
definition follows the spec's words for comparison with `resolverCai`.) -/
def caiSpecPoints (argPts : List CPoint) (maxX : ℕ) (periodLength : ℚ) : List CPoint :=
  (List.range maxX).map fun x =>
    (x, (interpEval argPts (x + 1) - interpEval argPts x) / periodLength)

/-- A single Python float division, made fallible: `a / b` raises
`ZeroDivisionError` exactly when `b == 0`. -/
def pyDivChecked (a b : ℚ) : Option ℚ := if b = 0 then none else some (a / b)

/-- The divisor substitution of `Curve.__div__`:
`[1. if not y else y for y in other.y()]`. -/
def divSubstitute (bys : List ℚ) : List ℚ := bys.map fun y => if y = 0 then 1 else y

/-- The y-list computed by `Curve.__div__`:
`[a/b for a, b in zip(self.y(), [1. if not y else y for y in other.y()])]`,
with each division kept fallible so that "never raises" is expressible. -/
def divYList (apts : List CPoint) (maxXa : ℕ) (bpts : List CPoint) (maxXb : ℕ) :
    List (Option ℚ) :=
  ((curveY apts maxXa).zip (divSubstitute (curveY bpts maxXb))).map fun ab =>
    pyDivChecked ab.1 ab.2

/-!
## Operability-expression compilation (`DevelopmentType._compile_oper_expr`)

The source splits the expression string on the boolean operator and each
condition component into `lhs rel_op rhs`; we embed the expression after that
tokenisation: a boolean operator tag and a list of relational conditions.
A `_CP` condition's left-hand side is the calendar period, `_AGE` is the age,
and any other name is a yield component, resolved (the string dispatch and
the `self.ycomp(o)` lookup) to its curve's point list.
-/

/-- The exceptions `_compile_oper_expr` can raise: the `assert`s
(`period <= horizon`, `oper != 'or'`, and the final `plo <= phi`), and the
`NameError` caused by the misspelt `rel_opertors` in the `_CP`/`<=` branch. -/
inductive OperErr
  | assertionError
  | nameError
  deriving DecidableEq, Repr

/-- The left-hand side of one relational condition. -/
inductive CondLhs
  | cp
  | age
  | yld (pts : List CPoint)

/-- A relational operator of the operability sublanguage (`=`, `>=`, `<=`);
the source raises `ValueError` on anything else, which this embedding makes
unrepresentable. -/
inductive RelOp
  | eq
  | ge
  | le
  deriving DecidableEq, Repr

/-- One relational condition `lhs rel rhs` (the source maps every rhs through
`float`). -/
structure OperCond where
  lhs : CondLhs
  rel : RelOp
  rhs : ℚ

/-- The boolean operator of the whole expression: `and`, `or`, or `none`
(single condition, no operator found in the string). -/
inductive BoolOper
  | andO
  | orO
  | noneO
  deriving DecidableEq, Repr

/-- Python-2 `max(a, b)` where `a` may be `None` (`None` compares below every
integer). -/
def pyMaxOpt (a : Option ℤ) (b : ℤ) : ℤ :=
  match a with
  | none => b
  | some v => max v b

/-- Python-2 `min(a, b)` where either side may be `None` (`None` compares
below every integer, so any `None` makes the minimum `None`). -/
def pyMinOpt (a : Option ℤ) (b : Option ℤ) : Option ℤ :=
  match a, b with
  | none, _ => none
  | _, none => none
  | some v, some w => some (min v w)

/-- The mutable locals of `_compile_oper_expr`'s loop: the period window
`plo`/`phi` (`phi` can become Python `None` via `min(None, phi)`), the age
window `alo`/`ahi`, and the per-condition temporaries
`_plo, _phi, _alo, _ahi`, initialised to `None` once, before the loop, and
therefore persistent across iterations. -/
structure OperState where
  plo : ℤ
  phi : Option ℤ
  alo : ℤ
  ahi : ℤ
  uplo : Option ℤ
  uphi : Option ℤ
  ualo : Option ℤ
  uahi : Option ℤ

/-- One iteration of the `for i, o in enumerate(lhs)` loop of
`_compile_oper_expr`: dispatch on the condition's lhs, update the period
window inside the `_CP` branch, and finally fold the age temporaries into
`alo`/`ahi` (narrowing for `and`, widening for `or` and for a single
condition without an operator). -/
def operStep (horizon : ℕ) (oper : BoolOper) (st : OperState) (c : OperCond) :
    Except OperErr OperState :=
  let branch : Except OperErr OperState :=
    match c.lhs with
    | CondLhs.cp =>
      let period := pyInt c.rhs
      if period > (horizon : ℤ) then Except.error OperErr.assertionError
      else if oper = BoolOper.orO then Except.error OperErr.assertionError
      else
        match c.rel with
        | RelOp.eq =>
          let st1 := { st with uplo := some period, uphi := some period }
          Except.ok { st1 with plo := pyMaxOpt st1.uplo st1.plo,
                               phi := pyMinOpt st1.uphi st1.phi }
        | RelOp.ge =>
          let st1 := { st with uplo := some period }
          Except.ok { st1 with plo := pyMaxOpt st1.uplo st1.plo,
                               phi := pyMinOpt st1.uphi st1.phi }
        | RelOp.le => Except.error OperErr.nameError
    | CondLhs.age =>
      let a := pyInt c.rhs
      match c.rel with
      | RelOp.eq => Except.ok { st with ualo := some a, uahi := some a }
      | RelOp.ge => Except.ok { st with ualo := some a }
      | RelOp.le => Except.ok { st with uahi := some a }
    | CondLhs.yld pts =>
      let v := curveLookup pts c.rhs
      match c.rel with
      | RelOp.eq => Except.ok { st with ualo := some v, uahi := some v }
      | RelOp.ge => Except.ok { st with ualo := some v }
      | RelOp.le => Except.ok { st with uahi := some v }
  match branch with
  | Except.error e => Except.error e
  | Except.ok st' =>
    if oper = BoolOper.andO then
      Except.ok { st' with alo := pyMaxOpt st'.ualo st'.alo,
                           ahi := (st'.uahi.map (min st'.ahi)).getD st'.ahi }
    else
      Except.ok { st' with alo := (st'.ualo.map (min st'.alo)).getD st'.alo,
                           ahi := pyMaxOpt st'.uahi st'.ahi }

/-- Fold of `operStep` over the condition list, short-circuiting on the first
raised exception. -/
def operFold (horizon : ℕ) (oper : BoolOper) :
    OperState → List OperCond → Except OperErr OperState
  | st, [] => Except.ok st
  | st, c :: cs =>
    match operStep horizon oper st c with
    | Except.error e => Except.error e
    | Except.ok st' => operFold horizon oper st' cs

/-- `DevelopmentType._compile_oper_expr` for one expression: initial windows
`plo, phi = 1, horizon` and `alo, ahi = 0, max_age` (inverted to
`max_age+1, -1` for an `or` expression), the condition loop, the final
`assert plo <= phi` (which also fires, Python-2 style, when `phi` has become
`None`), and the resulting assignment
`operability[acode][p] = (alo, ahi) if alo <= ahi else None` for every
`p in range(plo, phi+1)` — returned here as the triple
`(plo, phi, window)`. -/
def compileOperExpr (horizon maxAge : ℕ) (oper : BoolOper) (conds : List OperCond) :
    Except OperErr (ℤ × ℤ × Option (ℤ × ℤ)) :=
  let st0 : OperState :=
    { plo := 1, phi := some (horizon : ℤ)
      alo := if oper = BoolOper.orO then (maxAge : ℤ) + 1 else 0
      ahi := if oper = BoolOper.orO then -1 else (maxAge : ℤ)
      uplo := none, uphi := none, ualo := none, uahi := none }
  match operFold horizon oper st0 conds with
  | Except.error e => Except.error e
  | Except.ok st =>
    match st.phi with
    | none => Except.error OperErr.assertionError
    | some phi =>
      if st.plo > phi then Except.error OperErr.assertionError
      else
        Except.ok (st.plo, phi, if st.alo ≤ st.ahi then some (st.alo, st.ahi) else none)

/-!
## The action/transition engine (`WoodstockModel.apply_action`)

Development-type keys are tuples of theme attribute codes, modelled as
`List String`.  The `_REPLACE` theme rewrite calls Python `eval` on an
integer-arithmetic expression over one source theme code; it is embedded as
an opaque rewrite closure `String → String` together with its theme index.
The `_APPEND` rewrite is unimplemented upstream (`resolve_append` is
`assert False`), so a target carrying one makes `apply_action` raise.
-/

/-- A development-type key: the ordered tuple of theme attribute codes. -/
abbrev DKey := List String

/-- `Action`: the fields `apply_action` reads.  (`import_actions_section`
only ever sets `targetage` to `0` or `None`.) -/
structure WAction where
  code : String
  targetage : Option ℕ
  lockexempt : Bool

/-- One transition target tuple
`(tmask, tprop, tage, tlock, treplace, tappend)` as unpacked by
`apply_action`. -/
structure WTarget where
  tmask : List String
  tprop : ℚ
  tage : Option ℕ
  tlock : Option ℤ
  treplace : Option (ℕ × (String → String))
  tappend : Bool

/-- The per-development-type state `apply_action` touches: the area ledger,
the set of action codes with declared operability expressions
(`oper_expr` keys), the compiled operability cache
(`operability : acode → period → (lo, hi) | None`, absent until compiled),
and the transition table keyed by `(acode, age)`. -/
structure WDevType where
  areas : DevAreas
  operExpr : List String
  operability : String → Option (ℕ → Option (ℤ × ℤ))
  transitions : String → ℕ → Option (List WTarget)

/-- `DevelopmentType.is_operable(acode, period, age)` on a development type
whose operability for `acode` is already compiled (as `apply_action`
guarantees by asserting `acode in dt.operability` first): `False` if the
action is not declared for the type or the compiled table has no entry for
the period, else `lo <= age <= hi`.  (The lazy `compile_action` call on an
uncompiled action is not modelled; an uncompiled action reads as
inoperable.) -/
def WDevType.isOperable (dt : WDevType) (acode : String) (period age : ℕ) : Bool :=
  if acode ∈ dt.operExpr then
    match dt.operability acode with
    | none => false
    | some m =>
      match m period with
      | none => false
      | some (lo, hi) => decide (lo ≤ (age : ℤ) ∧ (age : ℤ) ≤ hi)
  else false

/-- Add `delta` to one bucket of the ledger
(`DevelopmentType.area(period, age, delta)` with `delta=True`). -/
def WDevType.addArea (dt : WDevType) (p a : ℕ) (delta : ℚ) : WDevType :=
  { dt with areas := fun p' a' =>
      if p' = p ∧ a' = a then dt.areas p' a' + delta else dt.areas p' a' }

/-- The model-orchestrator state `apply_action` touches: the
development-type registry, the action registry, the applied-action ledger
(a recursive defaultdict, total with default `0`), and — abstracting the
loader tables `yields` / `oper_expr` / `transitions` together with the mask
matching of `create_dtype_fromkey` — the rules a freshly created development
type is seeded with. -/
structure WModel where
  dtypes : DKey → Option WDevType
  actions : String → Option WAction
  appliedActions : ℕ → String → DKey → ℕ → ℚ
  cloneOperExpr : DKey → List String
  cloneTransitions : DKey → String → ℕ → Option (List WTarget)

/-- `WoodstockModel.create_dtype_fromkey(key)`: a fresh `DevelopmentType`
has an all-zero area ledger and an empty compiled-operability cache; its
declared expressions and transitions are cloned from the loader tables whose
masks match the key. -/
def createDtypeFromkey (s : WModel) (k : DKey) : WDevType :=
  { areas := fun _ _ => 0
    operExpr := s.cloneOperExpr k
    operability := fun _ => none
    transitions := s.cloneTransitions k }

/-- Point update of the development-type registry. -/
def updDtype (d : DKey → Option WDevType) (k : DKey) (dt : WDevType) :
    DKey → Option WDevType :=
  fun k' => if k' = k then some dt else d k'

/-- The area of a bucket as seen through the registry (an absent development
type holds no area). -/
def stateArea (s : WModel) (k : DKey) (p a : ℕ) : ℚ :=
  match s.dtypes k with
  | some dt => dt.areas p a
  | none => 0

/-- The destination key of one target:
`dtk = [t if tmask[i] == '?' else tmask[i] for i, t in enumerate(dtk)]`
followed by the optional `_REPLACE` rewrite of one theme value.
(The mask is assumed to have the key's length — `nthemes`; a shorter mask
would raise `IndexError` in the source.) -/
def resolveTargetKey (srcKey : DKey) (t : WTarget) : DKey :=
  let dtk := (srcKey.zip t.tmask).map fun sm => if sm.2 = "?" then sm.1 else sm.2
  match t.treplace with
  | none => dtk
  | some (i, f) => dtk.set i (f (dtk.getD i ""))

/-- The destination-age resolution of `apply_action`:
`tage` if the target declares one; else the source `age` when the action
declares no target age; else `0`. -/
def resolveTargetage (tage : Option ℕ) (actionTargetage : Option ℕ) (age : ℕ) : ℕ :=
  match tage with
  | some t => t
  | none =>
    match actionTargetage with
    | none => age
    | some _ => 0

/-- Exceptions of `apply_action`: failed `assert`s (including the
`resolve_append` brick wall) and dictionary `KeyError`s.  Error results drop
the partially mutated state, as a caller letting the exception propagate
would. -/
inductive WErr
  | assertionError
  | keyError
  deriving DecidableEq, Repr

/-- The body of `apply_action`'s target loop for one target: resolve the
destination key (raising on `_APPEND`), create the destination development
type on first use, resolve the destination age, and add `area * tprop` to
the destination bucket. -/
def applyTarget (action : WAction) (srcKey : DKey) (period age : ℕ) (area : ℚ)
    (s : WModel) (t : WTarget) : Except WErr WModel :=
  let dtk := resolveTargetKey srcKey t
  if t.tappend then Except.error WErr.assertionError
  else
    let s1 :=
      match s.dtypes dtk with
      | some _ => s
      | none => { s with dtypes := updDtype s.dtypes dtk (createDtypeFromkey s dtk) }
    let targetage := resolveTargetage t.tage action.targetage age
    match s1.dtypes dtk with
    | some dt =>
      Except.ok { s1 with dtypes := updDtype s1.dtypes dtk (dt.addArea period targetage (area * t.tprop)) }
    | none => Except.error WErr.keyError

/-- The target loop of `apply_action`. -/
def applyTargets (action : WAction) (srcKey : DKey) (period age : ℕ) (area : ℚ) :
    WModel → List WTarget → Except WErr WModel
  | s, [] => Except.ok s
  | s, t :: ts =>
    match applyTarget action srcKey period age area s t with
    | Except.error e => Except.error e
    | Except.ok s' => applyTargets action srcKey period age area s' ts

/-- `WoodstockModel.apply_action(dtype_key, acode, period, age, area)`:
look up the development type (`KeyError` if absent); assert
`acode in dt.operability`, `dt.area(period, age) >= area`, `area > 0`;
**silently return with the state unchanged** when
`not dt.is_operable(acode, period, age)`; otherwise look up the action,
decrement the source bucket by `area`, run the target loop over
`dt.transitions[acode, age]` (`KeyError` if no transition is declared), and
add `area` to the applied-action ledger entry. -/
def applyAction (s : WModel) (dtypeKey : DKey) (acode : String) (period age : ℕ)
    (area : ℚ) : Except WErr WModel :=
  match s.dtypes dtypeKey with
  | none => Except.error WErr.keyError
  | some dt =>
    if (dt.operability acode).isNone then Except.error WErr.assertionError
    else if ¬ (dt.areas period age ≥ area) then Except.error WErr.assertionError
    else if ¬ (area > 0) then Except.error WErr.assertionError
    else if ¬ dt.isOperable acode period age then Except.ok s
    else
      match s.actions acode with
      | none => Except.error WErr.keyError
      | some action =>
        let s1 := { s with dtypes := updDtype s.dtypes dtypeKey (dt.addArea period age (-area)) }
        match dt.transitions acode age with
        | none => Except.error WErr.keyError
        | some targets =>
          match applyTargets action dtypeKey period age area s1 targets with
          | Except.error e => Except.error e
          | Except.ok s2 =>
            Except.ok { s2 with appliedActions := fun p' ac k' a' =>
              if p' = period ∧ ac = acode ∧ k' = dtypeKey ∧ a' = age then
                s2.appliedActions p' ac k' a' + area
              else s2.appliedActions p' ac k' a' }

/-!
## Theorems
-/

/-- **C3** — For every development type ledger and every period `p` below the
horizon, `grow(p, cascade=False)` moves every age bucket of period `p` to
`age+1` in period `p+1` (age `0` of the new row holds nothing), so the total
area in period `p+1` after growth equals the total area in period `p`
(here summed over any range covering the row's support). -/
theorem grow_shifts_and_conserves_area (ar : DevAreas) (p horizon N : ℕ)
    (_hp : p < horizon) (hN : ∀ a, N ≤ a → ar p a = 0) :
    (∀ a, grow ar p false horizon (p + 1) (a + 1) = ar p a) ∧
    grow ar p false horizon (p + 1) 0 = 0 ∧
    (∑ a in Finset.range (N + 1), grow ar p false horizon (p + 1) a)
      = ∑ a in Finset.range (N + 1), ar p a := by
  rw [grow_single_step]
  refine ⟨fun a => by simp [growStep], by simp [growStep], ?_⟩
  rw [Finset.sum_range_succ' (fun a => growStep ar p (p + 1) a) N]
  rw [Finset.sum_range_succ (fun a => ar p a) N]
  simp [growStep, hN N le_rfl]

/-- Example starting ledger used by witnesses: 50 units of area at
period 1, age 2. -/
def exLedger : DevAreas := fun p a => if p = 1 ∧ a = 2 then 50 else 0

/-- Witness for `grow_shifts_and_conserves_area` at a concrete ledger. -/
theorem grow_shifts_and_conserves_area_witness :
    (∑ a in Finset.range 4, grow exLedger 1 false 5 2 a)
      = ∑ a in Finset.range 4, exLedger 1 a :=
  (grow_shifts_and_conserves_area exLedger 1 5 3 (by decide)
    (fun a ha => by
      have h2 : a ≠ 2 := by omega
      simp [exLedger, h2])).2.2

/-- **C10** — A single-step `grow(p, cascade=False)` replaces the entire
period-`p+1` row by the shifted copy of the period-`p` row (the result at
`p+1` is determined by row `p` alone — nothing of the previous `p+1` row is
merged in), and leaves every other period's row, in particular period `p`
itself, unchanged. -/
theorem grow_discards_next_period_row (ar : DevAreas) (p horizon : ℕ) :
    grow ar p false horizon (p + 1) 0 = 0 ∧
    (∀ a, grow ar p false horizon (p + 1) (a + 1) = ar p a) ∧
    (∀ p' a, p' ≠ p + 1 → grow ar p false horizon p' a = ar p' a) := by
  rw [grow_single_step]
  exact ⟨by simp [growStep], fun a => by simp [growStep],
    fun p' a h => by simp [growStep, h]⟩

/-- Witness for `grow_discards_next_period_row`: growing period 1 leaves the
period-1 row itself untouched, and overwrites a stale period-2 value. -/
theorem grow_discards_next_period_row_witness :
    grow exLedger 1 false 5 1 2 = exLedger 1 2 :=
  (grow_discards_next_period_row exLedger 1 5).2.2 1 2 (by decide)

/-- Whether a condition's left-hand side is the calendar period `_CP`. -/
def CondLhs.isCp : CondLhs → Bool
  | CondLhs.cp => true
  | _ => false

/-- **C4** — Compiling an operability expression containing `_CP <= p`
(with `p` within the horizon) does **not** succeed: the `<=` branch of the
period-based condition reads the misspelt name `rel_opertors` and raises a
`NameError` instead of bounding the admissible periods by `p`.  Shown here
by evaluating the compiler at the concrete expression `_cp <= 3` with
horizon 5 and maximum age 100. -/
theorem compile_cp_le_raises_nameError :
    compileOperExpr 5 100 BoolOper.noneO
      [{ lhs := CondLhs.cp, rel := RelOp.le, rhs := 3 }]
      = Except.error OperErr.nameError := rfl

/-- A non-`_CP` condition never raises and leaves the period window
(`plo`, `phi`) untouched. -/
theorem operStep_not_cp_ok (horizon : ℕ) (oper : BoolOper) (st : OperState)
    (c : OperCond) (h : c.lhs.isCp = false) :
    ∃ st', operStep horizon oper st c = Except.ok st' ∧
      st'.plo = st.plo ∧ st'.phi = st.phi := by
  cases hl : c.lhs with
  | cp => rw [hl] at h; simp [CondLhs.isCp] at h
  | age =>
    cases hr : c.rel <;>
      simp only [operStep, hl, hr] <;> split <;> exact ⟨_, rfl, rfl, rfl⟩
  | yld pts =>
    cases hr : c.rel <;>
      simp only [operStep, hl, hr] <;> split <;> exact ⟨_, rfl, rfl, rfl⟩

/-- Folding only non-`_CP` conditions never raises and preserves the period
window. -/
theorem operFold_not_cp_ok (horizon : ℕ) (oper : BoolOper) :
    ∀ (conds : List OperCond) (st : OperState),
      (∀ c ∈ conds, c.lhs.isCp = false) →
      ∃ st', operFold horizon oper st conds = Except.ok st' ∧
        st'.plo = st.plo ∧ st'.phi = st.phi
  | [], st, _ => ⟨st, rfl, rfl, rfl⟩
  | c :: cs, st, h => by
    obtain ⟨st1, hstep, hplo, hphi⟩ :=
      operStep_not_cp_ok horizon oper st c (h c (List.mem_cons_self c cs))
    obtain ⟨st2, hfold, hplo2, hphi2⟩ :=
      operFold_not_cp_ok horizon oper cs st1 (fun d hd => h d (List.mem_cons_of_mem c hd))
    exact ⟨st2, by simp [operFold, hstep, hfold], hplo2.trans hplo, hphi2.trans hphi⟩

/-- A `_CP` condition under `or` always raises (either the
`period <= horizon` sanity assert or the `oper != 'or'` assert fires). -/
theorem operStep_cp_or_raises (horizon : ℕ) (st : OperState) (c : OperCond)
    (h : c.lhs.isCp = true) :
    ∃ e, operStep horizon BoolOper.orO st c = Except.error e := by
  cases hl : c.lhs with
  | cp =>
    by_cases hp : pyInt c.rhs > (horizon : ℤ)
    · exact ⟨OperErr.assertionError, by simp [operStep, hl, hp]⟩
    · exact ⟨OperErr.assertionError, by simp [operStep, hl, hp]⟩
  | age => rw [hl] at h; simp [CondLhs.isCp] at h
  | yld pts => rw [hl] at h; simp [CondLhs.isCp] at h

/-- Folding conditions under `or` always raises once some condition is
period-based, whatever state the fold starts from. -/
theorem operFold_cp_or_raises (horizon : ℕ) :
    ∀ (conds : List OperCond) (st : OperState),
      (∃ c ∈ conds, c.lhs.isCp = true) →
      ∃ e, operFold horizon BoolOper.orO st conds = Except.error e
  | [], _, h => by simp at h
  | c :: cs, st, h => by
    by_cases hc : c.lhs.isCp = true
    · obtain ⟨e, he⟩ := operStep_cp_or_raises horizon st c hc
      exact ⟨e, by simp [operFold, he]⟩
    · simp only [Bool.not_eq_true] at hc
      obtain ⟨st1, hstep, -, -⟩ := operStep_not_cp_ok horizon BoolOper.orO st c hc
      obtain ⟨c', hc', hcp'⟩ := h
      have hmem : c' ∈ cs := by
        rcases List.mem_cons.mp hc' with rfl | hmem
        · rw [hcp'] at hc; exact absurd hc (by simp)
        · exact hmem
      obtain ⟨e, he⟩ := operFold_cp_or_raises horizon cs st1 ⟨c', hmem, hcp'⟩
      exact ⟨e, by simp [operFold, hstep, he]⟩

/-- **C5** — Compiling an OR-combined operability expression never raises
when every predicate is homogeneous (age-based or yield-based) and the
horizon is at least one period, and always raises as soon as the expression
contains a period-based (`_CP`) predicate under OR — in particular whenever
it mixes a `_CP` predicate with age-based predicates. -/
theorem or_compile_homogeneous_ok_mixed_raises (horizon maxAge : ℕ)
    (conds : List OperCond) :
    (1 ≤ horizon → (∀ c ∈ conds, c.lhs.isCp = false) →
      ∃ v, compileOperExpr horizon maxAge BoolOper.orO conds = Except.ok v) ∧
    ((∃ c ∈ conds, c.lhs.isCp = true) →
      ∃ e, compileOperExpr horizon maxAge BoolOper.orO conds = Except.error e) := by
  constructor
  · intro hhor hhom
    obtain ⟨st, hfold, hplo, hphi⟩ := operFold_not_cp_ok horizon BoolOper.orO conds
      { plo := 1, phi := some (horizon : ℤ), alo := (maxAge : ℤ) + 1, ahi := -1,
        uplo := none, uphi := none, ualo := none, uahi := none } hhom
    have hplo1 : st.plo = 1 := hplo
    have hphi1 : st.phi = some (horizon : ℤ) := hphi
    have h1 : ¬ ((horizon : ℤ) < st.plo) := by rw [hplo1]; omega
    refine ⟨(st.plo, (horizon : ℤ),
      if st.alo ≤ st.ahi then some (st.alo, st.ahi) else none), ?_⟩
    simp [compileOperExpr, hfold, hphi1, h1]
  · intro hcp
    obtain ⟨e, he⟩ := operFold_cp_or_raises horizon conds
      { plo := 1, phi := some (horizon : ℤ), alo := (maxAge : ℤ) + 1, ahi := -1,
        uplo := none, uphi := none, ualo := none, uahi := none } hcp
    exact ⟨e, by simp [compileOperExpr, he]⟩

/-- Witness for `or_compile_homogeneous_ok_mixed_raises`: the homogeneous
or-expression `_age >= 50 or _age <= 100` compiles without raising at
horizon 5, and `_cp >= 2 or _age >= 50` raises. -/
theorem or_compile_homogeneous_ok_mixed_raises_witness :
    (∃ v, compileOperExpr 5 100 BoolOper.orO
      [{ lhs := CondLhs.age, rel := RelOp.ge, rhs := 50 },
       { lhs := CondLhs.age, rel := RelOp.le, rhs := 100 }] = Except.ok v) ∧
    (∃ e, compileOperExpr 5 100 BoolOper.orO
      [{ lhs := CondLhs.cp, rel := RelOp.ge, rhs := 2 },
       { lhs := CondLhs.age, rel := RelOp.ge, rhs := 50 }] = Except.error e) :=
  ⟨(or_compile_homogeneous_ok_mixed_raises 5 100 _).1 (by decide)
      (by intro c hc
          rcases List.mem_cons.mp hc with rfl | hc'
          · rfl
          · rcases List.mem_cons.mp hc' with rfl | hc''
            · rfl
            · simp at hc''),
   (or_compile_homogeneous_ok_mixed_raises 5 100 _).2
      ⟨_, List.mem_cons_self _ _, rfl⟩⟩

/-- **C9 counterexample** — With no per-target age override and no
action-level target age, `apply_action` resolves the destination age to the
**source age** (here 42), not to 0 as the claim's fallback states. -/
theorem resolveTargetage_fallback_is_source_age :
    resolveTargetage none none 42 = 42 ∧ (42 : ℕ) ≠ 0 := ⟨rfl, by decide⟩

/-- **C9 (amended)** — Destination-age priority actually implemented by
`apply_action`: an explicit per-target age override is used if present;
otherwise, if the action declares a default target age the destination age
is 0 (coinciding with the declared value only because the importer never
declares anything but 0); otherwise the destination age is the source age
(not 0). -/
theorem resolveTargetage_priority (tage actionTargetage : Option ℕ) (age : ℕ) :
    (∀ t, tage = some t → resolveTargetage tage actionTargetage age = t) ∧
    (tage = none → actionTargetage ≠ none →
      resolveTargetage tage actionTargetage age = 0) ∧
    (tage = none → actionTargetage = none →
      resolveTargetage tage actionTargetage age = age) := by
  refine ⟨fun t ht => ?_, fun h1 h2 => ?_, fun h1 h2 => ?_⟩
  · rw [ht]; rfl
  · rw [h1]
    cases ha : actionTargetage with
    | none => exact absurd ha h2
    | some v => rfl
  · rw [h1, h2]; rfl

/-- Witness for `resolveTargetage_priority` at concrete inputs: override 7
wins; declared action age yields 0; no ages at all keeps source age 42. -/
theorem resolveTargetage_priority_witness :
    resolveTargetage (some 7) (some 0) 42 = 7 ∧
    resolveTargetage none (some 0) 42 = 0 ∧
    resolveTargetage none none 42 = 42 :=
  ⟨(resolveTargetage_priority (some 7) (some 0) 42).1 7 rfl,
   (resolveTargetage_priority none (some 0) 42).2.1 rfl (by simp),
   (resolveTargetage_priority none none 42).2.2 rfl rfl⟩

/-- **C8** — `Curve.__div__` is defined elementwise over the shared domain:
every division it performs has a nonzero divisor (each zero value of the
divisor curve is substituted by 1, so the operation never raises
`ZeroDivisionError`), and the value at each shared-domain age `x` is
`a(x)/b(x)` when `b(x) ≠ 0` and `a(x)` (the numerator propagated over the
substituted divisor 1) when `b(x) = 0`. -/
theorem div_guards_zero_divisor (apts bpts : List CPoint) (maxXa maxXb x : ℕ)
    (hxa : x ≤ maxXa) (hxb : x ≤ maxXb) :
    (∀ o ∈ divYList apts maxXa bpts maxXb, o.isSome = true) ∧
    (divYList apts maxXa bpts maxXb)[x]? =
      some (some (if interpEval bpts x = 0 then interpEval apts x
                  else interpEval apts x / interpEval bpts x)) := by
  constructor
  · intro o ho
    obtain ⟨ab, hab, rfl⟩ := List.mem_map.mp ho
    have hb : ab.2 ∈ divSubstitute (curveY bpts maxXb) := (List.of_mem_zip hab).2
    obtain ⟨y, -, hy⟩ := List.mem_map.mp hb
    have hne : ab.2 ≠ 0 := by
      rw [← hy]; split
      · exact one_ne_zero
      · assumption
    simp [pyDivChecked, hne]
  · have hza : x < (curveY apts maxXa).length := by
      simpa [curveY] using Nat.lt_succ_of_le hxa
    have hzb : x < (divSubstitute (curveY bpts maxXb)).length := by
      simpa [divSubstitute, curveY] using Nat.lt_succ_of_le hxb
    have hz : x < ((curveY apts maxXa).zip (divSubstitute (curveY bpts maxXb))).length := by
      rw [List.length_zip]; exact lt_min hza hzb
    have hxlt : x < (divYList apts maxXa bpts maxXb).length := by
      simpa [divYList] using hz
    rw [List.getElem?_eq_getElem hxlt]
    have hA : (curveY apts maxXa)[x] = interpEval apts x := by
      simp [curveY]
    have hB : (divSubstitute (curveY bpts maxXb))[x] =
        (if interpEval bpts x = 0 then 1 else interpEval bpts x) := by
      simp [divSubstitute, curveY]
    have hmain : (divYList apts maxXa bpts maxXb)[x] =
        some (if interpEval bpts x = 0 then interpEval apts x
              else interpEval apts x / interpEval bpts x) := by
      simp only [divYList, List.getElem_map, List.getElem_zip, hA, hB, pyDivChecked]
      split
      · simp
      · rfl
    rw [hmain]

/-- Witness for `div_guards_zero_divisor`: dividing the curve through
`(0,2),(1,6)` by the curve through `(0,0),(1,3)` yields `2` at age 0 (zero
divisor substituted by 1) without raising. -/
theorem div_guards_zero_divisor_witness :
    (divYList [(0, 2), (1, 6)] 1 [(0, 0), (1, 3)] 1)[0]? = some (some 2) :=
  ((div_guards_zero_divisor [(0, 2), (1, 6)] [(0, 0), (1, 3)] 1 1 0
    (by decide) (by decide)).2).trans (by decide)

/-- Unfolding equation for one iteration of the `Curve.simplify` loop. -/
theorem simplifyLoop_succ (orig : List CPoint) (ysum ε : ℚ) (maxX fuel : ℕ)
    (err e : ℚ) (p1 p2 p3 : List CPoint) :
    simplifyLoop orig ysum ε maxX (fuel + 1) err e p1 p2 p3 =
      if err < ε ∧ 2 < p1.length then
        if ysum < ε then orig
        else
          simplifyLoop orig ysum ε maxX fuel
            (relErrTo ysum maxX (simplifyPass e p1)) (e + 1/20)
            (simplifyPass e p1) (simplifyPass e p1) p2
      else p3 := rfl

/-- **C7** — The `CAI` derived-yield resolver does **not** produce the
periodic-increment curve of its argument: `_resolver_cai` calls `arg.mai()`
and therefore returns the mean-annual-increment curve.  For the argument
curve through `(0,0), (1,1), (2,4)` (max age 2, period length 1), the
resolver's curve has value `1` at age 1 while the periodic increment
`Δy / period_length` of the spec is `3` there. -/
theorem resolver_cai_returns_mai :
    interpEval (resolverCai [(0, 0), (1, 1), (2, 4)] 2 1 (1/100)) 1 = 1 ∧
    interpEval (caiSpecPoints [(0, 0), (1, 1), (2, 4)] 2 1) 1 = 3 ∧
    (1 : ℚ) ≠ 3 := by
  have hmai : maiPoints [(0, 0), (1, 1), (2, 4)] 2 1 = [(0, 0), (1, 1), (2, 2)] := by
    norm_num [maiPoints, List.range', interpEval, xsOf, ysOf, slopesOf, ptSlope,
      pyGet, bisectLeft, bisectLoop, List.getD, -Prod.mk_zero_zero, -Prod.mk_one_one]
  have hpad : padPoints 2 [(0, 0), (1, 1), (2, 2)] = [(0, 0), (1, 1), (2, 2)] := by
    norm_num [padPoints, -Prod.mk_zero_zero, -Prod.mk_one_one]
  have hsum1 : curveSum [(0, 0), (1, 1), (2, 2)] 2 = 3 := by
    norm_num [curveSum, curveY, List.range, List.range.loop, interpEval, xsOf, ysOf,
      slopesOf, ptSlope, pyGet, bisectLeft, bisectLoop, List.getD,
      -Prod.mk_zero_zero, -Prod.mk_one_one]
  have hsum2 : curveSum [(0, 0), (2, 2)] 2 = 3 := by
    norm_num [curveSum, curveY, List.range, List.range.loop, interpEval, xsOf, ysOf,
      slopesOf, ptSlope, pyGet, bisectLeft, bisectLoop, List.getD,
      -Prod.mk_zero_zero, -Prod.mk_one_one]
  have hpass0 : simplifyPass 0 [(0, 0), (1, 1), (2, 2)] = [(0, 0), (1, 1), (2, 2)] := by
    norm_num [simplifyPass, List.range', ptSlope, List.getD,
      -Prod.mk_zero_zero, -Prod.mk_one_one]
  have hpass1 : simplifyPass (1/20) [(0, 0), (1, 1), (2, 2)] = [(0, 0), (2, 2)] := by
    norm_num [simplifyPass, List.range', ptSlope, List.getD, List.erase,
      -Prod.mk_zero_zero, -Prod.mk_one_one]
    rfl
  have herr1 : relErrTo 3 2 [(0, 0), (1, 1), (2, 2)] = 0 := by
    norm_num [relErrTo, hsum1, -Prod.mk_zero_zero, -Prod.mk_one_one]
  have herr2 : relErrTo 3 2 [(0, 0), (2, 2)] = 0 := by
    norm_num [relErrTo, hsum2, -Prod.mk_zero_zero, -Prod.mk_one_one]
  have hres : resolverCai [(0, 0), (1, 1), (2, 4)] 2 1 (1/100) = [(0, 0), (1, 1), (2, 2)] := by
    rw [resolverCai, hmai, curveFromPoints, hpad, simplifyCurve]
    norm_num [hsum1, -Prod.mk_zero_zero, -Prod.mk_one_one]
    rw [show (500 : ℕ) = 499 + 1 from rfl, simplifyLoop_succ]
    norm_num [hpass0, herr1, -Prod.mk_zero_zero, -Prod.mk_one_one]
    rw [show (499 : ℕ) = 498 + 1 from rfl, simplifyLoop_succ]
    norm_num [hpass1, herr2, -Prod.mk_zero_zero, -Prod.mk_one_one]
    rw [show (498 : ℕ) = 497 + 1 from rfl, simplifyLoop_succ]
    norm_num [-Prod.mk_zero_zero, -Prod.mk_one_one]
  refine ⟨?_, ?_, by norm_num⟩
  · rw [hres]
    norm_num [interpEval, xsOf, ysOf, slopesOf, ptSlope, pyGet, bisectLeft,
      bisectLoop, List.getD, -Prod.mk_zero_zero, -Prod.mk_one_one]
  · norm_num [caiSpecPoints, List.range, List.range.loop, interpEval, xsOf, ysOf,
      slopesOf, ptSlope, pyGet, bisectLeft, bisectLoop, List.getD,
      -Prod.mk_zero_zero, -Prod.mk_one_one]

/-- A left fold that conditionally erases elements from its accumulator
keeps the accumulator a sublist of any list it started below. -/
theorem foldl_erase_sublist (f : ℕ → CPoint) (P : ℕ → Prop) [DecidablePred P] :
    ∀ (idxs : List ℕ) (acc l : List CPoint), List.Sublist acc l →
      List.Sublist (idxs.foldl (fun a i => if P i then a.erase (f i) else a) acc) l
  | [], _, _, h => h
  | i :: idxs, acc, l, h => by
    simp only [List.foldl_cons]
    apply foldl_erase_sublist f P idxs
    by_cases hP : P i
    · rw [if_pos hP]
      exact (List.erase_sublist _ _).trans h
    · rw [if_neg hP]
      exact h

/-- A removal pass of `_simplify` only erases points: the result is a
sublist of its input. -/
theorem simplifyPass_sublist (e : ℚ) (points : List CPoint) :
    List.Sublist (simplifyPass e points) points :=
  foldl_erase_sublist (fun i => points.getD i (0, 0))
    (fun i => |ptSlope (points.getD i (0, 0)) (points.getD (i + 1) (0, 0)) -
       ptSlope (points.getD (i - 1) (0, 0)) (points.getD i (0, 0))| < e)
    (List.range' 1 (points.length - 2)) points points (List.Sublist.refl points)

/-- The relative error of a point list against its own domain-sum is zero. -/
theorem relErrTo_self (pts : List CPoint) (maxX : ℕ) :
    relErrTo (curveSum pts maxX) maxX pts = 0 := by
  simp [relErrTo]

/-- Invariant of the `Curve.simplify` loop: if the one-back buffer's error
matches `err` and the two-back buffer satisfies the error bound, and all
buffers are no longer than the original list, then whatever the loop
returns is no longer than the original list and satisfies the error bound.
(The `ysum < epsilon` null-curve guard returns the original list, whose
relative error against `ysum` must also be below `epsilon`.) -/
theorem simplifyLoop_spec (orig : List CPoint) (ysum ε : ℚ) (maxX : ℕ)
    (horig : relErrTo ysum maxX orig < ε) :
    ∀ (fuel : ℕ) (err e : ℚ) (p1 p2 p3 : List CPoint),
      p1.length ≤ orig.length → p2.length ≤ orig.length → p3.length ≤ orig.length →
      err = relErrTo ysum maxX p2 → relErrTo ysum maxX p3 < ε →
      (simplifyLoop orig ysum ε maxX fuel err e p1 p2 p3).length ≤ orig.length ∧
      relErrTo ysum maxX (simplifyLoop orig ysum ε maxX fuel err e p1 p2 p3) < ε
  | 0, _err, _e, _p1, _p2, p3, _h1, _h2, h3, _herr, hp3 => ⟨h3, hp3⟩
  | fuel + 1, err, e, p1, p2, p3, h1, h2, h3, herr, hp3 => by
    rw [simplifyLoop_succ]
    by_cases hcond : err < ε ∧ 2 < p1.length
    · rw [if_pos hcond]
      by_cases hnull : ysum < ε
      · rw [if_pos hnull]
        exact ⟨le_refl _, horig⟩
      · rw [if_neg hnull]
        have hr : (simplifyPass e p1).length ≤ orig.length :=
          le_trans (simplifyPass_sublist e p1).length_le h1
        exact simplifyLoop_spec orig ysum ε maxX horig fuel
          (relErrTo ysum maxX (simplifyPass e p1)) (e + 1/20)
          (simplifyPass e p1) (simplifyPass e p1) p2 hr hr h2 rfl
          (herr ▸ hcond.1)
    · rw [if_neg hcond]
      exact ⟨h3, hp3⟩

/-- **C6** — Curves marked special are never simplified, and for every
non-special curve `simplify` produces a point list no longer than the
original whose domain-sum relative error against the original stays below
the curve's configured epsilon tolerance. -/
theorem simplify_bounds_length_and_error (ε : ℚ) (maxX : ℕ)
    (pts : List CPoint) (hε : 0 < ε) :
    simplifyCurve true ε maxX pts = pts ∧
    (simplifyCurve false ε maxX pts).length ≤ pts.length ∧
    relErrTo (curveSum pts maxX) maxX (simplifyCurve false ε maxX pts) < ε := by
  refine ⟨rfl, ?_⟩
  rw [simplifyCurve]
  simp only [Bool.false_eq_true, if_false]
  by_cases hlen : pts.length ≤ 2
  · rw [if_pos hlen]
    exact ⟨le_refl _, by rw [relErrTo_self]; exact hε⟩
  · rw [if_neg hlen]
    have h0 : (0 : ℚ) = relErrTo (curveSum pts maxX) maxX pts :=
      (relErrTo_self pts maxX).symm
    have hlt : relErrTo (curveSum pts maxX) maxX pts < ε := by
      rw [relErrTo_self]; exact hε
    exact simplifyLoop_spec pts (curveSum pts maxX) ε maxX hlt 500 0 0 pts pts pts
      (le_refl _) (le_refl _) (le_refl _) h0 hlt

/-- Witness for `simplify_bounds_length_and_error` on the four-point curve
through `(0,0) … (3,3)` with tolerance `1/100`. -/
theorem simplify_bounds_length_and_error_witness :
    (simplifyCurve false (1/100) 3 [(0, 0), (1, 1), (2, 2), (3, 3)]).length ≤ 4 ∧
    relErrTo (curveSum [(0, 0), (1, 1), (2, 2), (3, 3)] 3) 3
      (simplifyCurve false (1/100) 3 [(0, 0), (1, 1), (2, 2), (3, 3)]) < 1/100 :=
  (simplify_bounds_length_and_error (1/100) 3 [(0, 0), (1, 1), (2, 2), (3, 3)]
    (by norm_num)).2

/-- The summed proportions of the targets of one transition that route area
into bucket `(k, a)` (destination key and resolved destination age). -/
def targetPropsTo (srcKey : DKey) (action : WAction) (age : ℕ) (k : DKey) (a : ℕ)
    (targets : List WTarget) : ℚ :=
  ((targets.filter fun t =>
      decide (resolveTargetKey srcKey t = k) &&
      decide (resolveTargetage t.tage action.targetage age = a)).map
    fun t => t.tprop).sum

/-- The state produced by one `_APPEND`-free iteration of the target loop,
as a pure function (used to reason about `applyTarget`, which equals it on
the non-raising path). -/
def applyTargetFun (action : WAction) (srcKey : DKey) (period age : ℕ)
    (area : ℚ) (s : WModel) (t : WTarget) : WModel :=
  let dtk := resolveTargetKey srcKey t
  let s1 :=
    match s.dtypes dtk with
    | some _ => s
    | none => { s with dtypes := updDtype s.dtypes dtk (createDtypeFromkey s dtk) }
  let targetage := resolveTargetage t.tage action.targetage age
  match s1.dtypes dtk with
  | some dt =>
    { s1 with dtypes := updDtype s1.dtypes dtk (dt.addArea period targetage (area * t.tprop)) }
  | none => s1

/-- One target without `_APPEND` never raises: `applyTarget` returns the
pure update `applyTargetFun`. -/
theorem applyTarget_eq_fun (action : WAction) (srcKey : DKey) (period age : ℕ)
    (area : ℚ) (s : WModel) (t : WTarget) (happ : t.tappend = false) :
    applyTarget action srcKey period age area s t =
      Except.ok (applyTargetFun action srcKey period age area s t) := by
  unfold applyTarget applyTargetFun
  rw [happ]
  simp only [Bool.false_eq_true, if_false]
  cases hdtk : s.dtypes (resolveTargetKey srcKey t) with
  | some dt => rw [hdtk]
  | none => simp [updDtype]

/-- One `_APPEND`-free target adds exactly `area * tprop` to its resolved
destination bucket and leaves every other bucket unchanged (a freshly
created destination development type starts with zero area, so bucket reads
are unaffected by the creation). -/
theorem applyTargetFun_stateArea (action : WAction) (srcKey : DKey)
    (period age : ℕ) (area : ℚ) (s : WModel) (t : WTarget) (k : DKey) (p a : ℕ) :
    stateArea (applyTargetFun action srcKey period age area s t) k p a =
      stateArea s k p a +
        (if k = resolveTargetKey srcKey t ∧ p = period ∧
            a = resolveTargetage t.tage action.targetage age
         then area * t.tprop else 0) := by
  unfold applyTargetFun
  cases hdtk : s.dtypes (resolveTargetKey srcKey t) with
  | some dt =>
    simp only [hdtk]
    simp only [stateArea, updDtype, WDevType.addArea]
    by_cases hk : k = resolveTargetKey srcKey t
    · subst hk
      by_cases hpa : p = period ∧ a = resolveTargetage t.tage action.targetage age
      · simp [hdtk, hpa.1, hpa.2]
      · simp [hdtk, hpa]
    · simp [hk]
  | none =>
    simp only [hdtk]
    simp only [stateArea, updDtype, WDevType.addArea, createDtypeFromkey]
    by_cases hk : k = resolveTargetKey srcKey t
    · subst hk
      by_cases hpa : p = period ∧ a = resolveTargetage t.tage action.targetage age
      · simp [updDtype, hdtk, hpa.1, hpa.2]
      · simp [updDtype, hdtk, hpa]
    · simp [updDtype, hk]

/-- Peeling one target off the matching-proportion sum. -/
theorem targetPropsTo_cons (srcKey : DKey) (action : WAction) (age : ℕ)
    (k : DKey) (a : ℕ) (t : WTarget) (ts : List WTarget) :
    targetPropsTo srcKey action age k a (t :: ts) =
      (if resolveTargetKey srcKey t = k ∧
          resolveTargetage t.tage action.targetage age = a
       then t.tprop else 0) + targetPropsTo srcKey action age k a ts := by
  simp only [targetPropsTo, List.filter_cons]
  by_cases hc : resolveTargetKey srcKey t = k ∧
      resolveTargetage t.tage action.targetage age = a
  · simp [hc]
  · simp [hc]

/-- A transition with no matching target routes nothing into the bucket. -/
theorem targetPropsTo_no_match (srcKey : DKey) (action : WAction) (age : ℕ)
    (k : DKey) (a : ℕ) (targets : List WTarget)
    (h : ∀ t ∈ targets, ¬(resolveTargetKey srcKey t = k ∧
        resolveTargetage t.tage action.targetage age = a)) :
    targetPropsTo srcKey action age k a targets = 0 := by
  unfold targetPropsTo
  have hnil : (targets.filter fun t =>
      decide (resolveTargetKey srcKey t = k) &&
      decide (resolveTargetage t.tage action.targetage age = a)) = [] := by
    rw [List.filter_eq_nil_iff]
    intro t ht
    simp [h t ht]
  rw [hnil]
  rfl

/-- The target loop of `apply_action`, run over `_APPEND`-free targets,
never raises and adds `area` times the summed matching proportions to every
period-`period` bucket (and touches nothing else). -/
theorem applyTargets_spec (action : WAction) (srcKey : DKey) (period age : ℕ)
    (area : ℚ) :
    ∀ (targets : List WTarget) (s : WModel),
      (∀ t ∈ targets, t.tappend = false) →
      ∃ s', applyTargets action srcKey period age area s targets = Except.ok s' ∧
        ∀ k p a, stateArea s' k p a = stateArea s k p a +
          (if p = period then area * targetPropsTo srcKey action age k a targets
           else 0)
  | [], s, _ => ⟨s, rfl, by simp [targetPropsTo]⟩
  | t :: ts, s, h => by
    obtain ⟨s', hok, hchar⟩ := applyTargets_spec action srcKey period age area ts
      (applyTargetFun action srcKey period age area s t)
      (fun u hu => h u (List.mem_cons_of_mem t hu))
    refine ⟨s', ?_, ?_⟩
    · simp only [applyTargets,
        applyTarget_eq_fun action srcKey period age area s t (h t (List.mem_cons_self t ts)),
        hok]
    · intro k p a
      rw [hchar k p a, applyTargetFun_stateArea, targetPropsTo_cons]
      by_cases hp : p = period
      · subst hp
        by_cases hk : k = resolveTargetKey srcKey t
        · by_cases ha : a = resolveTargetage t.tage action.targetage age
          · rw [if_pos ⟨hk, rfl, ha⟩, if_pos rfl, if_pos rfl, if_pos ⟨hk.symm, ha.symm⟩,
              mul_add]
            ring
          · have h1 : ¬(k = resolveTargetKey srcKey t ∧ p = p ∧
                a = resolveTargetage t.tage action.targetage age) := by tauto
            have h2 : ¬(resolveTargetKey srcKey t = k ∧
                resolveTargetage t.tage action.targetage age = a) := fun hc => ha hc.2.symm
            rw [if_neg h1, if_pos rfl, if_pos rfl, if_neg h2, mul_add]
            ring
        · have h1 : ¬(k = resolveTargetKey srcKey t ∧ p = p ∧
              a = resolveTargetage t.tage action.targetage age) := by tauto
          have h2 : ¬(resolveTargetKey srcKey t = k ∧
              resolveTargetage t.tage action.targetage age = a) := fun hc => hk hc.1.symm
          rw [if_neg h1, if_pos rfl, if_pos rfl, if_neg h2, mul_add]
          ring
      · have h1 : ¬(k = resolveTargetKey srcKey t ∧ p = period ∧
            a = resolveTargetage t.tage action.targetage age) := by tauto
        rw [if_neg h1, if_neg hp, if_neg hp]
        ring

/-- Decrementing the source bucket
(`dt.area(period, age, -area)` seen through the registry). -/
theorem decrement_stateArea (s : WModel) (k : DKey) (dt : WDevType)
    (hdt : s.dtypes k = some dt) (period age : ℕ) (delta : ℚ)
    (k2 : DKey) (p2 a2 : ℕ) :
    stateArea { s with dtypes := updDtype s.dtypes k (dt.addArea period age delta) } k2 p2 a2
      = stateArea s k2 p2 a2 + (if k2 = k ∧ p2 = period ∧ a2 = age then delta else 0) := by
  simp only [stateArea, updDtype, WDevType.addArea]
  by_cases hk : k2 = k
  · subst hk
    simp only [if_pos rfl, hdt]
    by_cases hpa : p2 = period ∧ a2 = age
    · simp [hpa.1, hpa.2]
    · simp [hpa]
  · simp [hk]

/-- **C1 (amended)** — For every `apply_action` call that passes its
preconditions and is operable (so the action actually applies) with
`_APPEND`-free targets, the call succeeds, each bucket of the period gains
`area` times the summed proportions of the targets routed into it on top of
the `area` decrement of the source bucket, and — provided no target resolves
back to the source `(development-type key, age)` bucket — the source bucket's
area decreases by exactly `area`.  (In general the decrement applied to the
source bucket is exactly `area` and each target adds `area × proportion`;
a self-routing target adds its share back to the source bucket.) -/
theorem apply_action_area_accounting (s : WModel) (k : DKey) (acode : String)
    (period age : ℕ) (area : ℚ) (dt : WDevType) (action : WAction)
    (targets : List WTarget)
    (hdt : s.dtypes k = some dt)
    (hcomp : (dt.operability acode).isSome = true)
    (harea : dt.areas period age ≥ area)
    (hpos : area > 0)
    (hop : dt.isOperable acode period age = true)
    (hact : s.actions acode = some action)
    (htr : dt.transitions acode age = some targets)
    (happ : ∀ t ∈ targets, t.tappend = false)
    (hnoself : ∀ t ∈ targets, ¬(resolveTargetKey k t = k ∧
        resolveTargetage t.tage action.targetage age = age)) :
    ∃ s', applyAction s k acode period age area = Except.ok s' ∧
      (∀ k2 a2, stateArea s' k2 period a2 = stateArea s k2 period a2
        - (if k2 = k ∧ a2 = age then area else 0)
        + area * targetPropsTo k action age k2 a2 targets) ∧
      stateArea s' k period age = stateArea s k period age - area := by
  obtain ⟨s2, hok2, hchar2⟩ := applyTargets_spec action k period age area targets
    { s with dtypes := updDtype s.dtypes k (dt.addArea period age (-area)) } happ
  have hisNone : (dt.operability acode).isNone = false := by
    rcases Option.isSome_iff_exists.mp hcomp with ⟨v, hv⟩
    simp [hv]
  have heq : applyAction s k acode period age area = Except.ok
      { s2 with appliedActions := fun p ac k2 a2 =>
        if p = period ∧ ac = acode ∧ k2 = k ∧ a2 = age then
          s2.appliedActions p ac k2 a2 + area
        else s2.appliedActions p ac k2 a2 } := by
    simp only [applyAction, hdt, hact, htr, hok2]
    rw [if_neg (by simp [hisNone]), if_neg (not_not_intro harea),
      if_neg (not_not_intro hpos), if_neg (by rw [hop]; exact not_not_intro rfl)]
  have hmain : ∀ k2 a2, stateArea
      { s2 with appliedActions := fun p ac k2 a2 =>
        if p = period ∧ ac = acode ∧ k2 = k ∧ a2 = age then
          s2.appliedActions p ac k2 a2 + area
        else s2.appliedActions p ac k2 a2 } k2 period a2
      = stateArea s k2 period a2
        - (if k2 = k ∧ a2 = age then area else 0)
        + area * targetPropsTo k action age k2 a2 targets := by
    intro k2 a2
    have hs' : stateArea
        { s2 with appliedActions := fun p ac k2 a2 =>
          if p = period ∧ ac = acode ∧ k2 = k ∧ a2 = age then
            s2.appliedActions p ac k2 a2 + area
          else s2.appliedActions p ac k2 a2 } k2 period a2 = stateArea s2 k2 period a2 := rfl
    rw [hs', hchar2 k2 period a2, decrement_stateArea s k dt hdt period age (-area),
      if_pos rfl]
    by_cases hka : k2 = k ∧ a2 = age
    · rw [if_pos ⟨hka.1, rfl, hka.2⟩, if_pos hka]
      ring
    · have h1 : ¬(k2 = k ∧ period = period ∧ a2 = age) := by tauto
      rw [if_neg h1, if_neg hka]
      ring
  refine ⟨_, heq, hmain, ?_⟩
  rw [hmain k age, targetPropsTo_no_match k action age k age targets hnoself,
    if_pos ⟨rfl, rfl⟩]
  ring

/-- Example transition target: wildcard mask (stay on the same development
type), proportion 1, explicit destination-age override 10 — a self-routing
target when applied at source age 10. -/
def exSelfTarget : WTarget :=
  { tmask := ["?"], tprop := 1, tage := some 10, tlock := none,
    treplace := none, tappend := false }

/-- Example development type holding 50 units at period 1, age 10, with
action `h` compiled operable over ages 0–100 in period 1 and a single
self-routing transition target. -/
def exDtSelf : WDevType :=
  { areas := fun p a => if p = 1 ∧ a = 10 then 50 else 0
    operExpr := ["h"]
    operability := fun ac =>
      if ac = "h" then some (fun p => if p = 1 then some (0, 100) else none) else none
    transitions := fun ac a => if ac = "h" ∧ a = 10 then some [exSelfTarget] else none }

/-- Example action `h` with no declared target age. -/
def exAction : WAction := { code := "h", targetage := none, lockexempt := false }

/-- Example model state around `exDtSelf`. -/
def exModelSelf : WModel :=
  { dtypes := fun key => if key = ["x"] then some exDtSelf else none
    actions := fun ac => if ac = "h" then some exAction else none
    appliedActions := fun _ _ _ _ => 0
    cloneOperExpr := fun _ => []
    cloneTransitions := fun _ _ _ => none }

/-- **C1 counterexample** — An operable `apply_action` call whose transition
routes 100% of the area back into the source `(key, age)` bucket leaves the
source bucket at 50, not at `50 - 50 = 0` as the claim's "decreases by
exactly `area`" requires. -/
theorem apply_action_self_transition_counterexample :
    Except.map (fun s' => stateArea s' ["x"] 1 10)
      (applyAction exModelSelf ["x"] "h" 1 10 50) = Except.ok 50 ∧
    (50 : ℚ) ≠ 50 - 50 := by
  constructor
  · norm_num [applyAction, exModelSelf, exDtSelf, exAction, exSelfTarget,
      WDevType.isOperable, applyTargets, applyTarget, applyTargetFun,
      resolveTargetKey, resolveTargetage, updDtype, WDevType.addArea,
      createDtypeFromkey, stateArea, Except.map]
  · norm_num

/-- Example clear-cut target: wildcard mask, proportion 1, destination age 0. -/
def exCutTarget : WTarget :=
  { tmask := ["?"], tprop := 1, tage := some 0, tlock := none,
    treplace := none, tappend := false }

/-- Example development type with one age-100 bucket of 50 units and a
clear-cut transition to age 0. -/
def exDtCut : WDevType :=
  { areas := fun p a => if p = 1 ∧ a = 100 then 50 else 0
    operExpr := ["h"]
    operability := fun ac =>
      if ac = "h" then some (fun p => if p = 1 then some (0, 200) else none) else none
    transitions := fun ac a => if ac = "h" ∧ a = 100 then some [exCutTarget] else none }

/-- Example model state around `exDtCut`. -/
def exModelCut : WModel :=
  { dtypes := fun key => if key = ["x"] then some exDtCut else none
    actions := fun ac => if ac = "h" then some exAction else none
    appliedActions := fun _ _ _ _ => 0
    cloneOperExpr := fun _ => []
    cloneTransitions := fun _ _ _ => none }

/-- Witness for `apply_action_area_accounting`: the spec's clear-cut
scenario (50 units at age 100, one target to age 0 with proportion 1). -/
theorem apply_action_area_accounting_witness :
    ∃ s', applyAction exModelCut ["x"] "h" 1 100 50 = Except.ok s' ∧
      (∀ k2 a2, stateArea s' k2 1 a2 = stateArea exModelCut k2 1 a2
        - (if k2 = ["x"] ∧ a2 = 100 then 50 else 0)
        + 50 * targetPropsTo ["x"] exAction 100 k2 a2 [exCutTarget]) ∧
      stateArea s' ["x"] 1 100 = stateArea exModelCut ["x"] 1 100 - 50 :=
  apply_action_area_accounting exModelCut ["x"] "h" 1 100 50 exDtCut exAction
    [exCutTarget]
    (by simp [exModelCut])
    (by simp [exDtCut])
    (by norm_num [exDtCut])
    (by norm_num)
    (by norm_num [WDevType.isOperable, exDtCut])
    (by simp [exModelCut])
    (by simp [exDtCut])
    (fun t ht => by rcases List.mem_singleton.mp ht with rfl; rfl)
    (fun t ht => by
      rcases List.mem_singleton.mp ht with rfl
      simp [exCutTarget, resolveTargetage])

/-- **C2 (amended)** — `apply_action` raises on a non-positive area, on an
area exceeding the bucket, and on an action with no compiled operability
entry for the development type; but when the action is compiled for the
type and the other preconditions hold, a call at a period/age where the
action is inoperable does **not** raise — it silently returns, leaving the
state unchanged. -/
theorem apply_action_precondition_behavior (s : WModel) (k : DKey)
    (acode : String) (period age : ℕ) (area : ℚ) :
    (area ≤ 0 → ∃ e, applyAction s k acode period age area = Except.error e) ∧
    (stateArea s k period age < area →
      ∃ e, applyAction s k acode period age area = Except.error e) ∧
    (∀ dt, s.dtypes k = some dt → dt.operability acode = none →
      applyAction s k acode period age area = Except.error WErr.assertionError) ∧
    (∀ dt, s.dtypes k = some dt → (dt.operability acode).isSome = true →
      dt.areas period age ≥ area → area > 0 →
      dt.isOperable acode period age = false →
      applyAction s k acode period age area = Except.ok s) := by
  refine ⟨?_, ?_, ?_, ?_⟩
  · intro hneg
    cases hdt : s.dtypes k with
    | none => exact ⟨WErr.keyError, by simp [applyAction, hdt]⟩
    | some dt =>
      by_cases h1 : (dt.operability acode).isNone = true
      · exact ⟨WErr.assertionError, by simp [applyAction, hdt, h1]⟩
      · by_cases h2 : dt.areas period age ≥ area
        · refine ⟨WErr.assertionError, ?_⟩
          simp only [applyAction, hdt]
          rw [if_neg h1, if_neg (not_not_intro h2), if_pos (not_lt.mpr hneg)]
        · refine ⟨WErr.assertionError, ?_⟩
          simp only [applyAction, hdt]
          rw [if_neg h1, if_pos h2]
  · intro hlt
    cases hdt : s.dtypes k with
    | none => exact ⟨WErr.keyError, by simp [applyAction, hdt]⟩
    | some dt =>
      have hlt2 : dt.areas period age < area := by
        simpa [stateArea, hdt] using hlt
      by_cases h1 : (dt.operability acode).isNone = true
      · exact ⟨WErr.assertionError, by simp [applyAction, hdt, h1]⟩
      · refine ⟨WErr.assertionError, ?_⟩
        simp only [applyAction, hdt]
        rw [if_neg h1, if_pos (not_le.mpr hlt2)]
  · intro dt hdt hnone
    simp only [applyAction, hdt]
    rw [if_pos (by simp [hnone])]
  · intro dt hdt hsome hge hpos hnop
    have h1 : ¬ ((dt.operability acode).isNone = true) := by
      rcases Option.isSome_iff_exists.mp hsome with ⟨v, hv⟩
      simp [hv]
    simp only [applyAction, hdt]
    rw [if_neg h1, if_neg (not_not_intro hge), if_neg (not_not_intro hpos),
      if_pos (by simp [hnop])]

/-- Example development type whose action `h` is compiled but operable only
in period 2 (so a period-1 call is inoperable while the compiled entry
exists). -/
def exDtInop : WDevType :=
  { areas := fun p a => if p = 1 ∧ a = 10 then 50 else 0
    operExpr := ["h"]
    operability := fun ac =>
      if ac = "h" then some (fun p => if p = 2 then some (0, 100) else none) else none
    transitions := fun _ _ => none }

/-- Example model state around `exDtInop`. -/
def exModelInop : WModel :=
  { dtypes := fun key => if key = ["x"] then some exDtInop else none
    actions := fun ac => if ac = "h" then some exAction else none
    appliedActions := fun _ _ _ _ => 0
    cloneOperExpr := fun _ => []
    cloneTransitions := fun _ _ _ => none }

/-- **C2 counterexample** — A call on an action that is not operable for the
given period (the compiled table has no period-1 entry) with a positive,
in-budget area does **not** raise: `apply_action` silently returns and the
state is unchanged, contradicting "fails fatally … never silently does
nothing". -/
theorem apply_action_inoperable_silently_returns :
    exDtInop.isOperable "h" 1 10 = false ∧
    applyAction exModelInop ["x"] "h" 1 10 50 = Except.ok exModelInop := by
  constructor
  · simp [WDevType.isOperable, exDtInop]
  · norm_num [applyAction, exModelInop, exDtInop, WDevType.isOperable]

/-- Witness for `apply_action_precondition_behavior`: the silent-return case
at the concrete inoperable state, plus the raising case on a non-positive
area. -/
theorem apply_action_precondition_behavior_witness :
    applyAction exModelInop ["x"] "h" 1 10 50 = Except.ok exModelInop ∧
    (∃ e, applyAction exModelInop ["x"] "h" 1 10 (-1) = Except.error e) :=
  ⟨(apply_action_precondition_behavior exModelInop ["x"] "h" 1 10 50).2.2.2 exDtInop
      (by simp [exModelInop])
      (by simp [exDtInop])
      (by norm_num [exDtInop])
      (by norm_num)
      (by simp [WDevType.isOperable, exDtInop]),
   (apply_action_precondition_behavior exModelInop ["x"] "h" 1 10 (-1)).1
      (by norm_num)⟩
